import Mathlib

/-!
Shallow embedding of the grid auto-detection core (`src/core/detector.py`)
of the gif-grid-split repository, together with theorems settling the
frozen claims about its specification.

Conventions of the embedding:
* Python floats are modelled as exact rationals (`ℚ`); the one genuinely
  irrational operation, `statistics.stdev` (a square root), is modelled
  over `ℝ` with `Real.sqrt`.
* Python code that can raise is modelled with `Option` (`none` = raise):
  `statistics.mean` raises `StatisticsError` on an empty sequence, so
  `detect_grid_lines` returns `none` exactly on the empty projection.
* The PIL image decoding / downscaling / projection building is outside
  the embedded core: `analyze_spritesheet` takes the two projections, the
  analysed (post-downscale) dimensions, the original size and the inverse
  scale factor as inputs, mirroring the code from the point where the two
  projection lists exist.
-/

/-- Mean of a list of rationals, `statistics.mean`.  Python raises on an
empty list; callers in the embedding guard emptiness themselves, the `0`
value for `[]` is unreachable junk. -/
def meanQ (l : List ℚ) : ℚ := l.sum / l.length

/-- Sorted copy of a list, as `sorted(data)` produces. -/
def sortQ (l : List ℚ) : List ℚ := List.insertionSort (· ≤ ·) l

/-- Median of a list, `statistics.median`: middle element of the sorted
list for odd length, average of the two middle elements for even length.
Python raises on the empty list; `0` is unreachable junk. -/
def medianQ (l : List ℚ) : ℚ :=
  let s := sortQ l
  let n := l.length
  if n % 2 = 1 then s.getD (n / 2) 0
  else if n = 0 then 0
  else (s.getD (n / 2 - 1) 0 + s.getD (n / 2) 0) / 2

/-- Python `round` on rationals: round half to even (banker's rounding). -/
def pyRoundQ (q : ℚ) : ℤ :=
  if q - ⌊q⌋ < 1 / 2 then ⌊q⌋
  else if 1 / 2 < q - ⌊q⌋ then ⌊q⌋ + 1
  else if Even (⌊q⌋ : ℤ) then ⌊q⌋ else ⌊q⌋ + 1

/-- Python `int()` on a rational: truncation toward zero. -/
def pyTrunc (q : ℚ) : ℤ := if q < 0 then -⌊-q⌋ else ⌊q⌋

/-- Python `round(x, 1)` on rationals. -/
def round1Q (q : ℚ) : ℚ := (pyRoundQ (q * 10) : ℚ) / 10

/-- Python `round` on reals (round half to even). -/
noncomputable def pyRoundR (y : ℝ) : ℤ :=
  if y - ⌊y⌋ < 1 / 2 then ⌊y⌋
  else if 1 / 2 < y - ⌊y⌋ then ⌊y⌋ + 1
  else if Even (⌊y⌋ : ℤ) then ⌊y⌋ else ⌊y⌋ + 1

/-- Python `round(x, 2)` on reals. -/
noncomputable def round2R (x : ℝ) : ℝ := (pyRoundR (x * 100) : ℝ) / 100

/-- Sample variance (denominator `n - 1`), the quantity under the square
root in `statistics.stdev`. -/
def sampleVarQ (l : List ℚ) : ℚ :=
  ((l.map fun x => (x - meanQ l) ^ 2).sum) / ((l.length : ℚ) - 1)

/-- `statistics.stdev`: square root of the sample variance. -/
noncomputable def stdevR (l : List ℚ) : ℝ := Real.sqrt ((sampleVarQ l : ℚ) : ℝ)

/-! ## Line detector (`detect_grid_lines`, detector.py lines 19-57) -/

/-- The in-line classifier of `detect_grid_lines`: dark mode compares
against `avg * threshold_ratio`, light mode against
`avg + (255 - avg) * (1 - threshold_ratio)`. -/
def isLineFn (avg thresh : ℚ) (detect_dark : Bool) : ℚ → Bool :=
  fun v =>
    if detect_dark then decide (v < avg * thresh)
    else decide (avg + (255 - avg) * (1 - thresh) < v)

/-- One iteration of the scan loop of `detect_grid_lines`.  State is
`(i, in_line, start, lines)` as in the Python `for i, val in enumerate`
loop. -/
def lineScanStep (isL : ℚ → Bool) (minW : ℕ)
    (st : ℕ × Bool × ℕ × List (ℕ × ℕ)) (v : ℚ) : ℕ × Bool × ℕ × List (ℕ × ℕ) :=
  match st with
  | (i, inL, start, lines) =>
    if isL v = true ∧ inL = false then (i + 1, true, i, lines)
    else if isL v = false ∧ inL = true then
      (i + 1, false, start, if minW ≤ i - start then lines ++ [(start, i)] else lines)
    else (i + 1, inL, start, lines)

/-- The scan loop of `detect_grid_lines` followed by the final
"run reaching the end of the sequence" close. -/
def lineScan (isL : ℚ → Bool) (minW : ℕ) (proj : List ℚ) : List (ℕ × ℕ) :=
  let fin := proj.foldl (lineScanStep isL minW) (0, false, 0, [])
  if fin.2.1 = true ∧ minW ≤ proj.length - fin.2.2.1 then
    fin.2.2.2 ++ [(fin.2.2.1, proj.length)]
  else fin.2.2.2

/-- `detect_grid_lines(projection, threshold_ratio, min_line_width,
detect_dark)`.  `none` models the `StatisticsError` that
`mean(projection)` raises on an empty projection. -/
def detect_grid_lines (projection : List ℚ) (thresh : ℚ) (min_line_width : ℕ)
    (detect_dark : Bool) : Option (List (ℕ × ℕ)) :=
  if projection = [] then none
  else
    let avg := meanQ projection
    some (lineScan (isLineFn avg thresh detect_dark) min_line_width projection)

/-! ## Edge detector (`detect_edges`, detector.py lines 60-84) -/

/-- Absolute first differences of a projection, the `gradients` list:
`gradients[i] = |projection[i+1] - projection[i]|`. -/
def gradientsOf : List ℚ → List ℚ
  | a :: b :: rest => |b - a| :: gradientsOf (b :: rest)
  | _ => []

/-- The distance test of `detect_edges`: `not edges or
(i - edges[-1]) >= min_gap`, with `last` the last accepted edge. -/
def edgeGapOk (minG : ℕ) (i : ℕ) : Option ℕ → Bool
  | none => true
  | some l => decide (minG ≤ i - l)

/-- The accumulation loop of `detect_edges` over the gradients, carrying
the current gradient index and the last accepted edge. -/
def edgeScan (minS : ℚ) (minG : ℕ) : List ℚ → ℕ → Option ℕ → List ℕ
  | [], _, _ => []
  | g :: rest, i, last =>
    if decide (minS ≤ g) && edgeGapOk minG i last then
      i :: edgeScan minS minG rest (i + 1) (some i)
    else edgeScan minS minG rest (i + 1) last

/-- `detect_edges(projection, min_edge_strength, min_gap)`: indices into
the gradients list (index `i` stands for the jump between projection
samples `i` and `i+1`). -/
def detect_edges (projection : List ℚ) (min_edge_strength : ℚ) (min_gap : ℕ) :
    List ℕ :=
  edgeScan min_edge_strength min_gap (gradientsOf projection) 0 none

/-! ## Periodicity filter (`find_periodic_lines` / `find_periodic_edges`,
detector.py lines 87-140) -/

/-- Center of a line interval, `(s + e) / 2`. -/
def centerQ (p : ℕ × ℕ) : ℚ := ((p.1 : ℚ) + p.2) / 2

/-- Gaps between consecutive elements of a list:
`[l[i+1] - l[i] for i in range(len(l) - 1)]`. -/
def gapsOf : List ℚ → List ℚ
  | a :: b :: rest => (b - a) :: gapsOf (b :: rest)
  | _ => []

/-- The filtering loop of `find_periodic_lines`: keep index 0, keep a
later line exactly when `centers[i] - centers[i-1]` lies in `[lo, hi]`. -/
def keepPeriodicFrom (centers : List ℚ) (lo hi : ℚ) : ℕ → List (ℕ × ℕ) → List (ℕ × ℕ)
  | _, [] => []
  | i, l :: rest =>
    if i = 0 then l :: keepPeriodicFrom centers lo hi (i + 1) rest
    else
      let gap := centers.getD i 0 - centers.getD (i - 1) 0
      if lo ≤ gap ∧ gap ≤ hi then l :: keepPeriodicFrom centers lo hi (i + 1) rest
      else keepPeriodicFrom centers lo hi (i + 1) rest

/-- `find_periodic_lines(lines, total_size, tolerance)`: result list plus
estimated cell count. -/
def find_periodic_lines (lines : List (ℕ × ℕ)) (total_size : ℕ) (tol : ℚ) :
    List (ℕ × ℕ) × ℕ :=
  if lines.length < 2 then (lines, lines.length + 1)
  else
    let centers := lines.map centerQ
    let gaps := gapsOf centers
    if gaps = [] then (lines, lines.length + 1)
    else
      let median_gap := medianQ gaps
      let filtered :=
        keepPeriodicFrom centers ((1 - tol) * median_gap) ((1 + tol) * median_gap) 0 lines
      (filtered, filtered.length + 1)

/-- Most frequent element of a list, ties broken in favor of the value
encountered first — the behavior of `Counter(...).most_common(1)[0][0]`
(Python dicts keep first-insertion order and `most_common` sorts stably
by descending count). `0` for the empty list is unreachable junk. -/
def mostCommonFirst : List ℤ → ℤ
  | [] => 0
  | x :: xs =>
    (xs.foldl
      (fun bc y => if bc.2 < (x :: xs).count y then (y, (x :: xs).count y) else bc)
      (x, (x :: xs).count x)).1

/-- The greedy filtering loop of `find_periodic_edges`: keep a later edge
exactly when its gap from the last KEPT edge lies in `[lo, hi]`. -/
def keepEdgesFrom (lo hi : ℚ) : List ℕ → ℕ → List ℕ
  | [], _ => []
  | e :: rest, last =>
    let gap : ℚ := (e : ℚ) - (last : ℚ)
    if lo ≤ gap ∧ gap ≤ hi then e :: keepEdgesFrom lo hi rest e
    else keepEdgesFrom lo hi rest last

/-- `find_periodic_edges(edges, total_size, tolerance)`: result list plus
estimated cell count (no `+ 1`). -/
def find_periodic_edges (edges : List ℕ) (total_size : ℕ) (tol : ℚ) :
    List ℕ × ℕ :=
  if edges.length < 3 then (edges, edges.length + 1)
  else
    let gaps : List ℚ := gapsOf (edges.map fun e => (e : ℚ))
    if gaps = [] then (edges, 1)
    else
      let most_common_gap : ℤ := mostCommonFirst (gaps.map fun g => pyRoundQ (g / 5) * 5)
      match edges with
      | [] => (edges, 1)
      | e0 :: rest =>
        let filtered :=
          e0 :: keepEdgesFrom ((1 - tol) * most_common_gap) ((1 + tol) * most_common_gap) rest e0
        (filtered, filtered.length)

/-! ## Size guesser (`guess_grid_from_size`, detector.py lines 143-173) -/

/-- The fixed catalog of common grid shapes, `common_grids`. -/
def common_grids : List (ℕ × ℕ) :=
  [(2, 2), (3, 3), (4, 4), (5, 5), (6, 6), (7, 7), (8, 8),
   (2, 4), (4, 2), (3, 4), (4, 3), (4, 6), (6, 4),
   (4, 8), (8, 4), (3, 6), (6, 3), (5, 10), (10, 5),
   (2, 8), (8, 2), (3, 9), (9, 3), (4, 12), (12, 4)]

/-- `guess_grid_from_size(width, height)`: surviving catalog entries with
their scores, sorted by descending score (Python's `list.sort` is stable;
`List.insertionSort` with the "score not smaller" relation reproduces the
stable descending order), truncated to the top five. -/
def guess_grid_from_size (width height : ℕ) : List (ℕ × ℕ × ℚ) :=
  let candidates := common_grids.filterMap fun rc =>
    let cell_w : ℚ := (width : ℚ) / rc.2
    let cell_h : ℚ := (height : ℚ) / rc.1
    let aspect : ℚ := if 0 < cell_h then cell_w / cell_h else 0
    if 1 / 2 ≤ aspect ∧ aspect ≤ 2 then
      let w_remainder : ℕ := width % rc.2
      let h_remainder : ℕ := height % rc.1
      some (rc.1, rc.2,
        1 - ((w_remainder : ℚ) / width + (h_remainder : ℚ) / height) / 2)
    else none
  (List.insertionSort (fun a b : ℕ × ℕ × ℚ => b.2.2 ≤ a.2.2) candidates).take 5

/-! ## Confidence scorer (`calculate_confidence`, detector.py lines 176-208) -/

/-- The spacing-regularity factor of one axis in `calculate_confidence`:
with at least two kept intervals and more than one center gap, multiply by
`max(0.5, 1 - cv)` where `cv = stdev(gaps) / mean(gaps)` if the mean is
positive, else `cv = 1`; otherwise no factor (1).  The Python
`try/except: pass` around this block cannot fire in exact arithmetic (the
guards already exclude the two raising cases: fewer than two data points
for `stdev` and a zero divisor), so the embedding is the guarded total
function. -/
noncomputable def axisFactor (l : List (ℕ × ℕ)) : ℝ :=
  if 2 ≤ l.length then
    let gaps := gapsOf (l.map centerQ)
    if gaps ≠ [] ∧ 1 < gaps.length then
      let cv : ℝ :=
        if 0 < meanQ gaps then stdevR gaps / ((meanQ gaps : ℚ) : ℝ) else 1
      max 0.5 (1 - cv)
    else 1
  else 1

/-- `calculate_confidence(h_lines, v_lines, rows, cols, height, width)`
(the `height`/`width` arguments are unused in the Python body as well). -/
noncomputable def calculate_confidence (h_lines v_lines : List (ℕ × ℕ))
    (rows cols height width : ℕ) : ℝ :=
  let c0 : ℝ := 1
  let c1 := if h_lines.length < rows - 1 then c0 * 0.7 else c0
  let c2 := if v_lines.length < cols - 1 then c1 * 0.7 else c1
  round2R (c2 * axisFactor h_lines * axisFactor v_lines)

/-! ## Strategy orchestrator (`analyze_spritesheet`, detector.py
lines 211-387), from the point where the two projections exist -/

/-- One candidate grid hypothesis (`best_result` dictionary). -/
structure Hyp where
  h_lines : List (ℕ × ℕ)
  v_lines : List (ℕ × ℕ)
  rows : ℕ
  cols : ℕ
  method : String

/-- Orchestrator state: `(best_result, best_confidence)`. -/
abbrev DetState := Option Hyp × ℝ

/-- The final analysis record returned by `analyze_spritesheet`. -/
structure AnalysisResult where
  rows : ℕ
  cols : ℕ
  horizontal_lines : List (ℤ × ℤ)
  vertical_lines : List (ℤ × ℤ)
  margin : ℤ
  line_width : ℚ
  confidence : ℝ
  image_size : ℕ × ℕ
  detection_method : String

/-- One threshold iteration of the dark-line / light-line sweep
(strategies 1 and 2 of `analyze_spritesheet`); `none` propagates a
`StatisticsError` from `detect_grid_lines` on an empty projection. -/
noncomputable def lineStrategyStep (hp vp : List ℚ) (height width : ℕ)
    (detect_dark : Bool) (methodName : String) (st : DetState) (t : ℚ) :
    Option DetState :=
  match detect_grid_lines hp t 1 detect_dark, detect_grid_lines vp t 1 detect_dark with
  | some h_lines, some v_lines =>
    let pr := find_periodic_lines h_lines height 0.25
    let pc := find_periodic_lines v_lines width 0.25
    if 1 < pr.2 ∧ 1 < pc.2 then
      let conf := calculate_confidence pr.1 pc.1 pr.2 pc.2 height width
      if st.2 < conf then some (some ⟨pr.1, pc.1, pr.2, pc.2, methodName⟩, conf)
      else some st
    else some st
  | _, _ => none

/-- One strength iteration of the edge sweep (strategy 3 of
`analyze_spritesheet`). -/
noncomputable def edgeStrategyStep (hp vp : List ℚ) (height width : ℕ)
    (st : DetState) (s : ℚ) : DetState :=
  let he := detect_edges hp s (height / 20)
  let ve := detect_edges vp s (width / 20)
  let pr := find_periodic_edges he height 0.2
  let pc := find_periodic_edges ve width 0.2
  if 1 < pr.2 ∧ 1 < pc.2 then
    let h_lines := pr.1.map fun e => (e, e + 1)
    let v_lines := pc.1.map fun e => (e, e + 1)
    let conf := calculate_confidence h_lines v_lines pr.2 pc.2 height width * 0.9
    if st.2 < conf then (some ⟨h_lines, v_lines, pr.2, pc.2, "edges"⟩, conf) else st
  else st

/-- Strategy 4 of `analyze_spritesheet`: take the top size guess if its
score exceeds 0.8 (the `best_confidence < 0.5` gate is applied at the
call site). -/
noncomputable def guessStage (origW origH : ℕ) (st : DetState) : DetState :=
  match guess_grid_from_size origW origH with
  | [] => st
  | g :: _ =>
    if (0.8 : ℚ) < g.2.2 then (some ⟨[], [], g.1, g.2.1, "guess"⟩, ((g.2.2 : ℚ) : ℝ) * 0.7)
    else st

/-- The tail of `analyze_spritesheet`: default result when no hypothesis
qualified, rescaling of line coordinates by the inverse downscale factor
(with `int` truncation), suggested margin and line width from the mean
interval width, and assembly of the returned record. -/
noncomputable def assemble (origSize : ℕ × ℕ) (scale : ℚ) (st : DetState) :
    AnalysisResult :=
  let hyp : Hyp := match st.1 with
    | none => ⟨[], [], 1, 1, "none"⟩
    | some h => h
  let conf : ℝ := match st.1 with
    | none => 0
    | some _ => st.2
  let h_scaled : List (ℤ × ℤ) :=
    if scale ≠ 1 then hyp.h_lines.map fun p => (pyTrunc (p.1 * scale), pyTrunc (p.2 * scale))
    else hyp.h_lines.map fun p => ((p.1 : ℤ), (p.2 : ℤ))
  let v_scaled : List (ℤ × ℤ) :=
    if scale ≠ 1 then hyp.v_lines.map fun p => (pyTrunc (p.1 * scale), pyTrunc (p.2 * scale))
    else hyp.v_lines.map fun p => ((p.1 : ℤ), (p.2 : ℤ))
  let all_widths : List ℚ := (h_scaled ++ v_scaled).map fun p => ((p.2 - p.1 : ℤ) : ℚ)
  let avg_line_width : ℚ := if all_widths ≠ [] then meanQ all_widths else 2
  ⟨hyp.rows, hyp.cols, h_scaled, v_scaled,
    max 1 (pyTrunc (avg_line_width / 2 + 1)), round1Q avg_line_width,
    conf, origSize, hyp.method⟩

/-- `analyze_spritesheet`, from the two projections on: the three
parameter sweeps, the size-guess fallback, the degenerate default and the
final assembly.  `hp`/`vp` are the horizontal/vertical projections of the
analysed (possibly downscaled) image, `width`/`height` its dimensions,
`origSize` the original pre-downscale size and `scale` the inverse
downscale factor. -/
noncomputable def analyze_spritesheet (hp vp : List ℚ) (width height : ℕ)
    (origSize : ℕ × ℕ) (scale : ℚ) (mode : String) : Option AnalysisResult :=
  let st0 : DetState := (none, 0)
  (if mode = "auto" ∨ mode = "dark_lines" then
      ([0.2, 0.3, 0.4, 0.5] : List ℚ).foldlM
        (lineStrategyStep hp vp height width true "dark_lines") st0
    else some st0).bind fun st1 =>
  (if mode = "auto" ∨ mode = "light_lines" then
      ([0.3, 0.4, 0.5] : List ℚ).foldlM
        (lineStrategyStep hp vp height width false "light_lines") st1
    else some st1).bind fun st2 =>
  let st3 :=
    if mode = "auto" ∨ mode = "edges" then
      ([20, 30, 40] : List ℚ).foldl (edgeStrategyStep hp vp height width) st2
    else st2
  let st4 :=
    if (mode = "auto" ∨ mode = "guess") ∧ st3.2 < 0.5 then
      guessStage origSize.1 origSize.2 st3
    else st3
  some (assemble origSize scale st4)

/-! ## Definitions written from the specification's words (for the
refinement claims C1 and C2) -/

/-- Modelled from the spec sentence of C2: iterate over the projection
indices `i = 1, 2, ...`, accepting index `i` as an edge when
`|proj[i] - proj[i-1]| >= min_edge_strength` and `i` is at least
`min_gap` past the last accepted edge (the first qualifying index is
accepted unconditionally).  `gradientsOf proj` listed from position `1`
is exactly the sequence `|proj[i] - proj[i-1]|` for `i = 1, ...`. -/
def specDetectEdges (projection : List ℚ) (min_edge_strength : ℚ) (min_gap : ℕ) :
    List ℕ :=
  edgeScan min_edge_strength min_gap (gradientsOf projection) 1 none

/-- Greedy filter of the spec's words for C1: keep a line exactly when the
gap from the previously KEPT center to its center lies in `[lo, hi]`. -/
def keepFromKept (lo hi : ℚ) : List (ℕ × ℕ) → ℚ → List (ℕ × ℕ)
  | [], _ => []
  | l :: rest, lastC =>
    if lo ≤ centerQ l - lastC ∧ centerQ l - lastC ≤ hi then
      l :: keepFromKept lo hi rest (centerQ l)
    else keepFromKept lo hi rest lastC

/-- The periodicity filter as claim C1 states it: period = median of the
gaps between consecutive raw centers, first interval always kept, each
subsequent interval kept exactly when the gap from the previously KEPT
center lies within `[(1-tol)·period, (1+tol)·period]`. -/
def specPeriodicLines (lines : List (ℕ × ℕ)) (tol : ℚ) : List (ℕ × ℕ) :=
  if lines.length < 2 then lines
  else
    match lines with
    | [] => []
    | l0 :: rest =>
      let m := medianQ (gapsOf ((l0 :: rest).map centerQ))
      l0 :: keepFromKept ((1 - tol) * m) ((1 + tol) * m) rest (centerQ l0)

/-- What `find_periodic_lines` actually does past the first interval
(the amended C1): keep `lines[i]` (`i ≥ 1`) exactly when the gap between
the consecutive RAW centers `centers[i] - centers[i-1]` lies within the
tolerance band around the median gap. -/
def periodicKeepRawPrev (lines : List (ℕ × ℕ)) (tol : ℚ) : List (ℕ × ℕ) :=
  match lines with
  | [] => []
  | l0 :: rest =>
    let gaps := gapsOf ((l0 :: rest).map centerQ)
    let m := medianQ gaps
    l0 :: ((rest.zip gaps).filterMap fun p =>
      if (1 - tol) * m ≤ p.2 ∧ p.2 ≤ (1 + tol) * m then some p.1 else none)

/-! ## Supporting lemmas about the periodicity filter -/

lemma gapsOf_length (c : List ℚ) : (gapsOf c).length = c.length - 1 := by
  induction c with
  | nil => rfl
  | cons a t ih =>
    cases t with
    | nil => rfl
    | cons b r =>
      simp only [gapsOf, List.length_cons] at ih ⊢
      omega

lemma gapsOf_getD (c : List ℚ) :
    ∀ k, k + 1 < c.length → (gapsOf c).getD k 0 = c.getD (k + 1) 0 - c.getD k 0 := by
  induction c with
  | nil => intro k h; simp at h
  | cons a t ih =>
    cases t with
    | nil => intro k h; simp at h
    | cons b r =>
      intro k h
      cases k with
      | zero => simp [gapsOf, List.getD]
      | succ k =>
        have h' : k + 1 < (b :: r).length := by
          simpa [List.length_cons] using Nat.lt_of_succ_lt_succ h
        simpa [gapsOf, List.getD_cons_succ] using ih k h'

lemma keepPeriodicFrom_eq_filterMap (centers : List ℚ) (lo hi : ℚ) :
    ∀ (rest : List (ℕ × ℕ)) (gs : List ℚ) (i : ℕ),
      gs.length = rest.length →
      (∀ k, k < rest.length →
        centers.getD (i + 1 + k) 0 - centers.getD (i + k) 0 = gs.getD k 0) →
      keepPeriodicFrom centers lo hi (i + 1) rest =
        (rest.zip gs).filterMap
          (fun p => if lo ≤ p.2 ∧ p.2 ≤ hi then some p.1 else none) := by
  intro rest
  induction rest with
  | nil => intro gs i _ _; simp [keepPeriodicFrom]
  | cons l rest ih =>
    intro gs i hlen hk
    match gs with
    | g :: gs' =>
      have hg : centers.getD (i + 1) 0 - centers.getD i 0 = g := by
        have := hk 0 (by simp)
        simpa using this
      have hlen' : gs'.length = rest.length := by simpa using hlen
      have hk' : ∀ k, k < rest.length →
          centers.getD (i + 1 + 1 + k) 0 - centers.getD (i + 1 + k) 0 = gs'.getD k 0 := by
        intro k hklt
        have := hk (k + 1) (by simpa using Nat.succ_lt_succ hklt)
        have e1 : i + 1 + (k + 1) = i + 1 + 1 + k := by omega
        have e2 : i + (k + 1) = i + 1 + k := by omega
        rw [e1, e2] at this
        simpa using this
      have hrec := ih gs' (i + 1) hlen' hk'
      simp only [keepPeriodicFrom, Nat.succ_ne_zero, if_false, List.zip_cons_cons,
        List.filterMap_cons]
      rw [show i + 1 - 1 = i from by omega, hg]
      by_cases hcond : lo ≤ g ∧ g ≤ hi
      · simp only [if_pos hcond, hrec]
      · simp only [if_neg hcond, hrec]

/-- The head of the output of `find_periodic_lines` is the head of its
input (shared helper for C1 and C8). -/
lemma find_periodic_lines_head (lines : List (ℕ × ℕ)) (t : ℕ) (tol : ℚ)
    (h : lines ≠ []) :
    ((find_periodic_lines lines t tol).1).head? = lines.head? := by
  match lines, h with
  | l0 :: rest, _ =>
    unfold find_periodic_lines
    dsimp only
    split_ifs with h1 h2
    · rfl
    · rfl
    · simp [keepPeriodicFrom]

/-- The head of the output of `find_periodic_edges` is the head of its
input (shared helper for C8). -/
lemma find_periodic_edges_head (edges : List ℕ) (t : ℕ) (tol : ℚ)
    (h : edges ≠ []) :
    ((find_periodic_edges edges t tol).1).head? = edges.head? := by
  match edges, h with
  | e0 :: rest, _ =>
    unfold find_periodic_edges
    dsimp only
    split_ifs with h1 h2
    · rfl
    · rfl
    · simp

/-- C8: the Periodicity Filter never drops the first raw element: for
every non-empty input, the first interval of `find_periodic_lines`'s
input appears first in its output, and the first edge of
`find_periodic_edges`'s input appears first in its output. -/
theorem C8_first_element_kept (lines : List (ℕ × ℕ)) (edges : List ℕ)
    (tl te : ℕ) (tolL tolE : ℚ) (hl : lines ≠ []) (he : edges ≠ []) :
    ((find_periodic_lines lines tl tolL).1).head? = lines.head? ∧
    ((find_periodic_edges edges te tolE).1).head? = edges.head? :=
  ⟨find_periodic_lines_head lines tl tolL hl,
   find_periodic_edges_head edges te tolE he⟩

/-- C8 witness: the first-kept property evaluated on concrete inputs. -/
theorem C8_first_element_kept_witness :
    ((find_periodic_lines [(0, 2), (10, 12)] 20 0.25).1).head? =
        ([(0, 2), (10, 12)] : List (ℕ × ℕ)).head? ∧
    ((find_periodic_edges [5] 20 0.2).1).head? = ([5] : List ℕ).head? :=
  C8_first_element_kept [(0, 2), (10, 12)] [5] 20 20 0.25 0.2
    (by decide) (by decide)

/-- C1: the claim as stated is FALSE.  On the interval list
`[(0,2), (99,101), (139,141), (239,241)]` (centers 1, 100, 140, 240,
median raw gap 99, tolerance band `[74.25, 123.75]`), the code keeps
`(239,241)` because the gap from the previous RAW center (240 - 140 =
100) is in band, although the gap from the previously KEPT center
(240 - 100 = 140) is out of band, so the filter described by the claim
would drop it. -/
theorem C1_counterexample :
    (find_periodic_lines [(0, 2), (99, 101), (139, 141), (239, 241)] 300 0.25).1 ≠
      specPeriodicLines [(0, 2), (99, 101), (139, 141), (239, 241)] 0.25 := by
  have h1 : (find_periodic_lines [(0, 2), (99, 101), (139, 141), (239, 241)] 300 0.25).1 =
      [(0, 2), (99, 101), (239, 241)] := by
    norm_num [find_periodic_lines, keepPeriodicFrom, centerQ, gapsOf, medianQ, sortQ,
      List.insertionSort, List.orderedInsert, List.getD]
    simp
  have h2 : specPeriodicLines [(0, 2), (99, 101), (139, 141), (239, 241)] 0.25 =
      [(0, 2), (99, 101)] := by
    norm_num [specPeriodicLines, keepFromKept, centerQ, gapsOf, medianQ, sortQ,
      List.insertionSort, List.orderedInsert]
  rw [h1, h2]
  decide

/-- C1 (amended): for every input of at least 2 intervals,
`find_periodic_lines` keeps the first interval and keeps each subsequent
interval `lines[i]` exactly when the gap between the consecutive RAW
centers, `centers[i] - centers[i-1]`, lies within
`[(1-tol)·period, (1+tol)·period]` where `period` is the median of the
raw center gaps (the gap is NOT measured from the previously kept
center); the estimated cell count is the kept count plus one. -/
theorem C1_raw_previous_center_gap (lines : List (ℕ × ℕ)) (total_size : ℕ)
    (tol : ℚ) (h : 2 ≤ lines.length) :
    find_periodic_lines lines total_size tol =
      (periodicKeepRawPrev lines tol, (periodicKeepRawPrev lines tol).length + 1) := by
  match lines, h with
  | l0 :: l1 :: rest, _ =>
    have hlen2 : ¬((l0 :: l1 :: rest).length < 2) := by simp
    have hgne : gapsOf ((l0 :: l1 :: rest).map centerQ) ≠ [] := by
      simp [gapsOf]
    unfold find_periodic_lines periodicKeepRawPrev
    dsimp only
    rw [if_neg hlen2, if_neg hgne]
    have hfirst :
        ∀ lo hi : ℚ, keepPeriodicFrom ((l0 :: l1 :: rest).map centerQ) lo hi 0 (l0 :: l1 :: rest) =
          l0 :: keepPeriodicFrom ((l0 :: l1 :: rest).map centerQ) lo hi 1 (l1 :: rest) := by
      intro lo hi
      simp [keepPeriodicFrom]
    have hbridge :
        ∀ lo hi : ℚ, keepPeriodicFrom ((l0 :: l1 :: rest).map centerQ) lo hi 1 (l1 :: rest) =
          ((l1 :: rest).zip (gapsOf ((l0 :: l1 :: rest).map centerQ))).filterMap
            (fun p => if lo ≤ p.2 ∧ p.2 ≤ hi then some p.1 else none) := by
      intro lo hi
      have h01 : (0 : ℕ) + 1 = 1 := rfl
      rw [← h01]
      apply keepPeriodicFrom_eq_filterMap
      · rw [gapsOf_length]
        simp
      · intro k hk
        have hk2 : k + 1 < ((l0 :: l1 :: rest).map centerQ).length := by
          simp only [List.length_map, List.length_cons]
          simp only [List.length_cons] at hk
          omega
        rw [gapsOf_getD _ k hk2]
        simp [Nat.add_comm 1 k]
    rw [hfirst, hbridge]

/-- C1 witness: the amended statement applied to a concrete two-interval
input. -/
theorem C1_raw_previous_center_gap_witness :
    find_periodic_lines [(0, 2), (10, 12)] 30 0.25 =
      (periodicKeepRawPrev [(0, 2), (10, 12)] 0.25,
        (periodicKeepRawPrev [(0, 2), (10, 12)] 0.25).length + 1) :=
  C1_raw_previous_center_gap [(0, 2), (10, 12)] 30 0.25 (by decide)

/-! ## Supporting lemmas about the edge detector -/

lemma edgeScan_shift (s : ℚ) (g : ℕ) :
    ∀ (l : List ℚ) (i : ℕ) (last : Option ℕ),
      edgeScan s g l (i + 1) (Option.map (· + 1) last) =
        (edgeScan s g l i last).map (· + 1) := by
  intro l
  induction l with
  | nil => intro i last; simp [edgeScan]
  | cons gr rest ih =>
    intro i last
    have hgap : edgeGapOk g (i + 1) (Option.map (· + 1) last) = edgeGapOk g i last := by
      cases last with
      | none => rfl
      | some prev => simp [edgeGapOk, Nat.succ_sub_succ]
    by_cases hb : (decide (s ≤ gr) && edgeGapOk g i last) = true
    · simp only [edgeScan, hgap, hb, if_true]
      rw [show (some (i + 1)) = Option.map (· + 1) (some i) from rfl, ih]
      simp
    · simp only [edgeScan, hgap, hb, Bool.false_eq_true, if_false]
      exact ih (i + 1) last

lemma edgeScan_ge (s : ℚ) (g : ℕ) :
    ∀ (l : List ℚ) (i : ℕ) (last : Option ℕ) (e : ℕ),
      e ∈ edgeScan s g l i last → i ≤ e := by
  intro l
  induction l with
  | nil => intro i last e he; simp [edgeScan] at he
  | cons gr rest ih =>
    intro i last e he
    by_cases hb : (decide (s ≤ gr) && edgeGapOk g i last) = true
    · simp only [edgeScan, hb, if_true, List.mem_cons] at he
      rcases he with rfl | he
      · exact le_refl e
      · exact le_trans (Nat.le_succ i) (ih (i + 1) (some i) e he)
    · simp only [edgeScan, hb, Bool.false_eq_true, if_false] at he
      exact le_trans (Nat.le_succ i) (ih (i + 1) last e he)

lemma edgeScan_chain (s : ℚ) (g : ℕ) :
    ∀ (l : List ℚ) (i : ℕ) (last : Option ℕ),
      List.Chain' (· < ·) (edgeScan s g l i last) := by
  intro l
  induction l with
  | nil => intro i last; simp [edgeScan]
  | cons gr rest ih =>
    intro i last
    by_cases hb : (decide (s ≤ gr) && edgeGapOk g i last) = true
    · simp only [edgeScan, hb, if_true]
      refine List.chain'_cons'.mpr ⟨?_, ih (i + 1) (some i)⟩
      intro b hb2
      have hmem : b ∈ edgeScan s g rest (i + 1) (some i) :=
        List.mem_of_mem_head? hb2
      exact lt_of_lt_of_le (Nat.lt_succ_self i) (edgeScan_ge s g rest (i + 1) (some i) b hmem)
    · simp only [edgeScan, hb, Bool.false_eq_true, if_false]
      exact ih (i + 1) last

/-- C2: the claim as stated is FALSE.  On the projection `[0, 100]` with
`min_edge_strength = 30` the jump `|proj[1] - proj[0]| = 100` qualifies,
so by the claim's indexing the output should be `[1]`; the code stores
the gradient index and returns `[0]`. -/
theorem C2_counterexample :
    detect_edges [0, 100] 30 10 ≠ specDetectEdges [0, 100] 30 10 := by
  have h1 : detect_edges [0, 100] 30 10 = [0] := by
    norm_num [detect_edges, gradientsOf, edgeScan, edgeGapOk]
  have h2 : specDetectEdges [0, 100] 30 10 = [1] := by
    norm_num [specDetectEdges, gradientsOf, edgeScan, edgeGapOk]
  rw [h1, h2]
  decide

/-- C2 (amended): `detect_edges` returns a strictly increasing list of
GRADIENT indices: its output is the list described by the claim (accept
position `i` exactly when `|proj[i] - proj[i-1]| ≥ min_edge_strength`
and `i` is at least `min_gap` past the last accepted position, the first
qualifying position accepted unconditionally) with every index shifted
down by one, i.e. an accepted output index `i` stands for the jump
`|proj[i+1] - proj[i]|`. -/
theorem C2_gradient_indexed_edges (proj : List ℚ) (s : ℚ) (g : ℕ) :
    detect_edges proj s g = (specDetectEdges proj s g).map (fun i => i - 1) ∧
    List.Chain' (· < ·) (detect_edges proj s g) := by
  constructor
  · have hshift : edgeScan s g (gradientsOf proj) 1 none =
        (edgeScan s g (gradientsOf proj) 0 none).map (· + 1) := by
      simpa using edgeScan_shift s g (gradientsOf proj) 0 none
    unfold detect_edges specDetectEdges
    rw [hshift, List.map_map]
    have hid : ((fun i => i - 1) ∘ (· + 1) : ℕ → ℕ) = id := by
      funext n
      simp
    rw [hid, List.map_id]
  · exact edgeScan_chain s g (gradientsOf proj) 0 none

/-! ## Supporting invariants for the line detector (claim C7) -/

/-- Loop invariant of the scan of `detect_grid_lines`: when inside a run
the recorded start lies strictly before the current index, every
collected interval is non-degenerate and ends before the region still
being scanned, and the collected intervals are strictly sorted by start
and pairwise disjoint. -/

def stInvP (i : ℕ) (inL : Bool) (s0 : ℕ) (L : List (ℕ × ℕ)) : Prop :=
  (inL = true → s0 < i) ∧
  (∀ p ∈ L, p.1 < p.2 ∧ p.2 ≤ cond inL s0 i) ∧
  List.Pairwise (fun a b : ℕ × ℕ => a.1 < b.1 ∧ a.2 ≤ b.1) L

lemma lineScanStep_fst (isL : ℚ → Bool) (minW : ℕ)
    (st : ℕ × Bool × ℕ × List (ℕ × ℕ)) (v : ℚ) :
    (lineScanStep isL minW st v).1 = st.1 + 1 := by
  obtain ⟨i, inL, s0, L⟩ := st
  unfold lineScanStep
  dsimp only
  split_ifs <;> rfl

lemma lineScanStep_inv (isL : ℚ → Bool) (minW : ℕ)
    (i : ℕ) (inL : Bool) (s0 : ℕ) (L : List (ℕ × ℕ)) (v : ℚ)
    (h : stInvP i inL s0 L) :
    stInvP (lineScanStep isL minW (i, inL, s0, L) v).1
      (lineScanStep isL minW (i, inL, s0, L) v).2.1
      (lineScanStep isL minW (i, inL, s0, L) v).2.2.1
      (lineScanStep isL minW (i, inL, s0, L) v).2.2.2 := by
  obtain ⟨h1, h2, h3⟩ := h
  unfold lineScanStep
  dsimp only
  by_cases hc1 : isL v = true ∧ inL = false
  · rw [if_pos hc1]
    obtain ⟨-, hinL⟩ := hc1
    subst hinL
    exact ⟨fun _ => Nat.lt_succ_self i, fun p hp => h2 p hp, h3⟩
  · rw [if_neg hc1]
    by_cases hc2 : isL v = false ∧ inL = true
    · rw [if_pos hc2]
      obtain ⟨-, hinL⟩ := hc2
      subst hinL
      have hs0 : s0 < i := h1 rfl
      refine ⟨fun hf => absurd hf (by simp), ?_, ?_⟩
      · intro p hp
        by_cases hw : minW ≤ i - s0
        · rw [if_pos hw] at hp
          rcases List.mem_append.mp hp with hp | hp
          · have := h2 p hp
            exact ⟨this.1, by dsimp at this ⊢; omega⟩
          · rcases List.mem_singleton.mp hp with rfl
            exact ⟨hs0, by dsimp; omega⟩
        · rw [if_neg hw] at hp
          have := h2 p hp
          exact ⟨this.1, by dsimp at this ⊢; omega⟩
      · by_cases hw : minW ≤ i - s0
        · rw [if_pos hw]
          refine List.pairwise_append.mpr ⟨h3, by simp, ?_⟩
          intro a ha b hb
          rcases List.mem_singleton.mp hb with rfl
          have := h2 a ha
          dsimp at this
          exact ⟨lt_of_lt_of_le this.1 this.2, this.2⟩
        · rw [if_neg hw]
          exact h3
    · rw [if_neg hc2]
      cases inL with
      | false =>
        refine ⟨by simp, ?_, h3⟩
        intro p hp
        have := h2 p hp
        dsimp at this ⊢
        exact ⟨this.1, by omega⟩
      | true =>
        refine ⟨fun _ => lt_trans (h1 rfl) (Nat.lt_succ_self i), ?_, h3⟩
        intro p hp
        exact h2 p hp

lemma foldl_lineScan_inv (isL : ℚ → Bool) (minW : ℕ) :
    ∀ (l : List ℚ) (st : ℕ × Bool × ℕ × List (ℕ × ℕ)),
      stInvP st.1 st.2.1 st.2.2.1 st.2.2.2 →
      stInvP (l.foldl (lineScanStep isL minW) st).1
        (l.foldl (lineScanStep isL minW) st).2.1
        (l.foldl (lineScanStep isL minW) st).2.2.1
        (l.foldl (lineScanStep isL minW) st).2.2.2 := by
  intro l
  induction l with
  | nil => intro st h; exact h
  | cons v rest ih =>
    intro st h
    obtain ⟨i, inL, s0, L⟩ := st
    exact ih _ (lineScanStep_inv isL minW i inL s0 L v h)

lemma foldl_lineScan_fst (isL : ℚ → Bool) (minW : ℕ) :
    ∀ (l : List ℚ) (st : ℕ × Bool × ℕ × List (ℕ × ℕ)),
      (l.foldl (lineScanStep isL minW) st).1 = st.1 + l.length := by
  intro l
  induction l with
  | nil => intro st; simp
  | cons v rest ih =>
    intro st
    rw [List.foldl_cons, ih, lineScanStep_fst]
    simp only [List.length_cons]
    omega

lemma lineScan_valid (isL : ℚ → Bool) (minW : ℕ) (proj : List ℚ) :
    List.Pairwise (fun a b : ℕ × ℕ => a.1 < b.1 ∧ a.2 ≤ b.1) (lineScan isL minW proj) ∧
    ∀ p ∈ lineScan isL minW proj, p.1 < p.2 ∧ p.2 ≤ proj.length := by
  have hinv := foldl_lineScan_inv isL minW proj (0, false, 0, [])
    ⟨by simp, by simp, by simp⟩
  have hfst : (proj.foldl (lineScanStep isL minW) (0, false, 0, [])).1 = proj.length := by
    rw [foldl_lineScan_fst]
    simp
  set fin := proj.foldl (lineScanStep isL minW) (0, false, 0, []) with hfin
  obtain ⟨h1, h2, h3⟩ := hinv
  unfold lineScan
  rw [← hfin]
  dsimp only
  split_ifs with hc
  · have hs0 : fin.2.2.1 < proj.length := by
      rw [← hfst]
      exact h1 hc.1
    constructor
    · refine List.pairwise_append.mpr ⟨h3, by simp, ?_⟩
      intro a ha b hb
      rcases List.mem_singleton.mp hb with rfl
      have := h2 a ha
      rw [hc.1] at this
      dsimp at this
      exact ⟨lt_of_lt_of_le this.1 this.2, this.2⟩
    · intro p hp
      rcases List.mem_append.mp hp with hp | hp
      · have := h2 p hp
        rw [hc.1] at this
        dsimp at this
        exact ⟨this.1, by omega⟩
      · rcases List.mem_singleton.mp hp with rfl
        exact ⟨hs0, le_refl _⟩
  · refine ⟨h3, ?_⟩
    intro p hp
    have := h2 p hp
    cases hb : fin.2.1 with
    | false =>
      rw [hb] at this
      dsimp at this
      rw [hfst] at this
      exact this
    | true =>
      rw [hb] at this
      dsimp at this
      have hs0 : fin.2.2.1 < proj.length := by
        rw [← hfst]
        exact h1 hb
      exact ⟨this.1, by omega⟩

/-- C7: for every projection and every parameter setting, the Line
Detector's output list is sorted by start (strictly increasing starts),
its intervals are pairwise disjoint (each interval ends no later than any
later interval starts), and every interval `(start, end)` satisfies
`start < end ≤ len(projection)` (`0 ≤ start` holds by the `ℕ` type).
Stated for every output the detector actually returns; on the empty
projection the code raises (`none`) and returns nothing. -/
theorem C7_interval_validity (projection : List ℚ) (thresh : ℚ) (min_line_width : ℕ)
    (detect_dark : Bool) (out : List (ℕ × ℕ))
    (h : detect_grid_lines projection thresh min_line_width detect_dark = some out) :
    List.Pairwise (fun a b : ℕ × ℕ => a.1 < b.1 ∧ a.2 ≤ b.1) out ∧
    ∀ p ∈ out, p.1 < p.2 ∧ p.2 ≤ projection.length := by
  by_cases hp : projection = []
  · rw [detect_grid_lines, if_pos hp] at h
    exact Option.noConfusion h
  · rw [detect_grid_lines, if_neg hp] at h
    have h' : lineScan (isLineFn (meanQ projection) thresh detect_dark)
        min_line_width projection = out := by
      simpa using h
    rw [← h']
    exact lineScan_valid _ min_line_width projection


/-- C7 witness: the interval-validity statement applied to the concrete
projection `[1, 0, 1]` at dark threshold 0.3, whose output is `[(1, 2)]`. -/
theorem C7_interval_validity_witness :
    List.Pairwise (fun a b : ℕ × ℕ => a.1 < b.1 ∧ a.2 ≤ b.1) [(1, 2)] ∧
    ∀ p ∈ ([(1, 2)] : List (ℕ × ℕ)), p.1 < p.2 ∧ p.2 ≤ ([1, 0, 1] : List ℚ).length :=
  C7_interval_validity [1, 0, 1] 0.3 1 true [(1, 2)] (by
    norm_num [detect_grid_lines, lineScan, lineScanStep, isLineFn, meanQ, List.foldl]
    intro hcon
    simp at hcon)

/-- C9: the Confidence Scorer is a total function of its inputs whose two
axis penalties factor independently (so a degenerate axis never stops the
other axis from being evaluated); with fewer than 2 center gaps on an
axis the regularity penalty of that axis is skipped (factor 1), and with
a zero mean gap the code sets `cv = 1`, so the floored factor
`max(0.5, 1 - cv) = 0.5` applies.  The Python `try/except` around the
regularity step cannot fire in exact arithmetic (its two raising cases,
`stdev` of fewer than two points and division by zero, are excluded by
the guards), so the embedding is the guarded total function. -/
theorem C9_scorer_degeneracies (h_lines v_lines : List (ℕ × ℕ))
    (rows cols height width : ℕ) :
    calculate_confidence h_lines v_lines rows cols height width =
      round2R ((if h_lines.length < rows - 1 then (0.7 : ℝ) else 1) *
        (if v_lines.length < cols - 1 then (0.7 : ℝ) else 1) *
        axisFactor h_lines * axisFactor v_lines) ∧
    ((gapsOf (h_lines.map centerQ)).length < 2 → axisFactor h_lines = 1) ∧
    (2 ≤ h_lines.length → 1 < (gapsOf (h_lines.map centerQ)).length →
      meanQ (gapsOf (h_lines.map centerQ)) = 0 → axisFactor h_lines = 1 / 2) := by
  refine ⟨?_, ?_, ?_⟩
  · unfold calculate_confidence
    dsimp only
    split_ifs with hh hv hv
    · exact congrArg round2R (by ring)
    · exact congrArg round2R (by ring)
    · exact congrArg round2R (by ring)
    · exact congrArg round2R (by ring)
  · intro hlen
    unfold axisFactor
    by_cases h2 : 2 ≤ h_lines.length
    · rw [if_pos h2]
      dsimp only
      rw [if_neg]
      intro hcon
      omega
    · rw [if_neg h2]
  · intro h2 hg hm
    unfold axisFactor
    rw [if_pos h2]
    dsimp only
    rw [if_pos ⟨by intro hc; rw [hc] at hg; simp at hg, hg⟩]
    rw [if_neg (by rw [hm]; exact lt_irrefl 0)]
    norm_num

/-- C9 witness: three degenerate intervals with identical centers give
two zero gaps (mean zero), so the axis factor is floored at 0.5; a
single interval has no gaps, so its axis factor is skipped (1). -/
theorem C9_scorer_degeneracies_witness :
    axisFactor [(0, 2), (0, 2), (0, 2)] = 1 / 2 ∧ axisFactor [(5, 7)] = 1 := by
  constructor
  · exact (C9_scorer_degeneracies [(0, 2), (0, 2), (0, 2)] [] 1 1 1 1).2.2
      (by decide)
      (by norm_num [gapsOf, centerQ])
      (by norm_num [gapsOf, centerQ, meanQ])
  · exact (C9_scorer_degeneracies [(5, 7)] [] 1 1 1 1).2.1
      (by norm_num [gapsOf, centerQ])

/-! ## Bound lemmas and the orchestrator invariant (claim C4) -/


lemma pyRoundR_nonneg (y : ℝ) (hy : 0 ≤ y) : 0 ≤ pyRoundR y := by
  unfold pyRoundR
  have hf : 0 ≤ ⌊y⌋ := Int.floor_nonneg.mpr hy
  split_ifs <;> omega

lemma pyRoundR_le (y : ℝ) (c : ℤ) (h : y ≤ c) : pyRoundR y ≤ c := by
  unfold pyRoundR
  have hf : ⌊y⌋ ≤ c := by
    have := Int.floor_le_floor h
    simpa using this
  by_cases heq : ⌊y⌋ = c
  · have hyc : y - ⌊y⌋ ≤ 0 := by
      rw [heq]
      have : y ≤ (c : ℝ) := h
      linarith
    have h1 : y - ⌊y⌋ < 1 / 2 := by linarith
    rw [if_pos h1]
    exact hf
  · have hlt : ⌊y⌋ + 1 ≤ c := by omega
    split_ifs <;> omega

lemma round2R_nonneg (x : ℝ) (h : 0 ≤ x) : 0 ≤ round2R x := by
  unfold round2R
  have := pyRoundR_nonneg (x * 100) (by positivity)
  positivity

lemma round2R_le_one (x : ℝ) (h : x ≤ 1) : round2R x ≤ 1 := by
  unfold round2R
  have h100 : pyRoundR (x * 100) ≤ (100 : ℤ) := by
    apply pyRoundR_le
    push_cast
    linarith
  rw [div_le_one (by norm_num)]
  calc ((pyRoundR (x * 100) : ℝ)) ≤ ((100 : ℤ) : ℝ) := by exact_mod_cast h100
    _ = 100 := by norm_num

lemma axisCv_nonneg (gaps : List ℚ) :
    0 ≤ (if 0 < meanQ gaps then stdevR gaps / ((meanQ gaps : ℚ) : ℝ) else 1) := by
  split_ifs with hm
  · exact div_nonneg (Real.sqrt_nonneg _) (by exact_mod_cast le_of_lt hm)
  · norm_num

lemma axisFactor_nonneg (l : List (ℕ × ℕ)) : 0 ≤ axisFactor l := by
  unfold axisFactor
  dsimp only
  split_ifs
  all_goals norm_num

lemma axisFactor_le_one (l : List (ℕ × ℕ)) : axisFactor l ≤ 1 := by
  unfold axisFactor
  dsimp only
  split_ifs with hA hB hm
  · apply max_le (by norm_num)
    have hd : (0 : ℝ) ≤ stdevR (gapsOf (List.map centerQ l)) /
        ((meanQ (gapsOf (List.map centerQ l)) : ℚ) : ℝ) :=
      div_nonneg (Real.sqrt_nonneg _) (by exact_mod_cast le_of_lt hm)
    linarith
  · apply max_le (by norm_num)
    norm_num
  all_goals norm_num

lemma calculate_confidence_nonneg (hl vl : List (ℕ × ℕ)) (rows cols height width : ℕ) :
    0 ≤ calculate_confidence hl vl rows cols height width := by
  unfold calculate_confidence
  dsimp only
  apply round2R_nonneg
  have h1 := axisFactor_nonneg hl
  have h2 := axisFactor_nonneg vl
  split_ifs <;> positivity

lemma calculate_confidence_le_one (hl vl : List (ℕ × ℕ)) (rows cols height width : ℕ) :
    calculate_confidence hl vl rows cols height width ≤ 1 := by
  unfold calculate_confidence
  dsimp only
  apply round2R_le_one
  have h1 := axisFactor_nonneg hl
  have h2 := axisFactor_nonneg vl
  have h3 := axisFactor_le_one hl
  have h4 := axisFactor_le_one vl
  have key : ∀ c : ℝ, 0 ≤ c → c ≤ 1 → c * axisFactor hl * axisFactor vl ≤ 1 := by
    intro c hc0 hc1
    have : c * axisFactor hl ≤ 1 := mul_le_one₀ hc1 h1 h3
    exact mul_le_one₀ this h2 h4
  split_ifs with hh hv hv
  · exact key _ (by norm_num) (by norm_num)
  · exact key _ (by norm_num) (by norm_num)
  · exact key _ (by norm_num) (by norm_num)
  · exact key _ (by norm_num) (by norm_num)

lemma remFrac_bounds (a b : ℕ) :
    0 ≤ ((a % b : ℕ) : ℚ) / a ∧ ((a % b : ℕ) : ℚ) / a ≤ 1 := by
  by_cases ha : a = 0
  · subst ha
    simp
  · have hapos : (0 : ℚ) < a := by
      exact_mod_cast Nat.pos_of_ne_zero ha
    constructor
    · positivity
    · rw [div_le_one hapos]
      exact_mod_cast Nat.mod_le a b

lemma common_grids_pos : ∀ p ∈ common_grids, 1 ≤ p.1 ∧ 1 ≤ p.2 := by decide

lemma guess_grid_from_size_mem (w h : ℕ) :
    ∀ x ∈ guess_grid_from_size w h, 1 ≤ x.1 ∧ 1 ≤ x.2.1 ∧ 0 ≤ x.2.2 ∧ x.2.2 ≤ 1 := by
  intro x hx
  unfold guess_grid_from_size at hx
  dsimp only at hx
  have hx2 := List.mem_of_mem_take hx
  have hx3 := (List.perm_insertionSort (fun a b : ℕ × ℕ × ℚ => b.2.2 ≤ a.2.2) _).mem_iff.mp hx2
  obtain ⟨rc, hrc, hfx⟩ := List.mem_filterMap.mp hx3
  generalize hA : (if 0 < (h : ℚ) / (rc.1 : ℚ) then
      (w : ℚ) / (rc.2 : ℚ) / ((h : ℚ) / (rc.1 : ℚ)) else 0) = A at hfx
  split_ifs at hfx with hcond
  obtain rfl := Option.some_inj.mp hfx
  have hpos := common_grids_pos rc hrc
  have hw := remFrac_bounds w rc.2
  have hh := remFrac_bounds h rc.1
  refine ⟨hpos.1, hpos.2, ?_, ?_⟩
  · dsimp only
    obtain ⟨hw1, hw2⟩ := hw
    obtain ⟨hh1, hh2⟩ := hh
    linarith
  · dsimp only
    obtain ⟨hw1, hw2⟩ := hw
    obtain ⟨hh1, hh2⟩ := hh
    linarith

def DetInv (st : DetState) : Prop :=
  0 ≤ st.2 ∧ st.2 ≤ 1 ∧ ∀ hyp, st.1 = some hyp → 1 ≤ hyp.rows ∧ 1 ≤ hyp.cols

lemma detInv_init : DetInv ((none : Option Hyp), (0 : ℝ)) :=
  ⟨le_refl 0, by norm_num, fun hyp h => Option.noConfusion h⟩

lemma lineStrategyStep_inv (hp vp : List ℚ) (hh ww : ℕ) (d : Bool) (m : String)
    (st : DetState) (t : ℚ) (st' : DetState)
    (hinv : DetInv st) (h : lineStrategyStep hp vp hh ww d m st t = some st') :
    DetInv st' := by
  unfold lineStrategyStep at h
  cases hdh : detect_grid_lines hp t 1 d with
  | none => rw [hdh] at h; exact Option.noConfusion h
  | some h_lines =>
    cases hdv : detect_grid_lines vp t 1 d with
    | none => rw [hdh, hdv] at h; exact Option.noConfusion h
    | some v_lines =>
      rw [hdh, hdv] at h
      dsimp only at h
      split_ifs at h with hguard hconf
      · obtain rfl := Option.some_inj.mp h
        unfold DetInv
        dsimp only
        refine ⟨?_, ?_, ?_⟩
        · exact calculate_confidence_nonneg _ _ _ _ _ _
        · exact calculate_confidence_le_one _ _ _ _ _ _
        · intro hyp hhyp
          obtain rfl := Option.some_inj.mp hhyp
          refine ⟨?_, ?_⟩ <;> (dsimp only; omega)
      · obtain rfl := Option.some_inj.mp h
        exact hinv
      · obtain rfl := Option.some_inj.mp h
        exact hinv

lemma foldlM_lineStrategy_inv (hp vp : List ℚ) (hh ww : ℕ) (d : Bool) (m : String) :
    ∀ (l : List ℚ) (st st' : DetState), DetInv st →
      l.foldlM (lineStrategyStep hp vp hh ww d m) st = some st' → DetInv st' := by
  intro l
  induction l with
  | nil =>
    intro st st' hinv h
    rw [List.foldlM_nil] at h
    obtain rfl := Option.some_inj.mp h
    exact hinv
  | cons t rest ih =>
    intro st st' hinv h
    rw [List.foldlM_cons] at h
    cases hstep : lineStrategyStep hp vp hh ww d m st t with
    | none => rw [hstep] at h; exact Option.noConfusion h
    | some s1 =>
      rw [hstep] at h
      have hbind : (some s1 >>= fun s => rest.foldlM (lineStrategyStep hp vp hh ww d m) s)
          = rest.foldlM (lineStrategyStep hp vp hh ww d m) s1 := rfl
      rw [hbind] at h
      exact ih s1 st' (lineStrategyStep_inv hp vp hh ww d m st t s1 hinv hstep) h

lemma edgeStrategyStep_inv (hp vp : List ℚ) (hh ww : ℕ) (st : DetState) (s : ℚ)
    (hinv : DetInv st) : DetInv (edgeStrategyStep hp vp hh ww st s) := by
  unfold edgeStrategyStep
  dsimp only
  split_ifs with hguard hconf
  · unfold DetInv
    dsimp only
    refine ⟨?_, ?_, ?_⟩
    · exact mul_nonneg (calculate_confidence_nonneg _ _ _ _ _ _) (by norm_num)
    · exact mul_le_one₀ (calculate_confidence_le_one _ _ _ _ _ _) (by norm_num) (by norm_num)
    · intro hyp hhyp
      obtain rfl := Option.some_inj.mp hhyp
      refine ⟨?_, ?_⟩ <;> (dsimp only; omega)
  · exact hinv
  · exact hinv

lemma foldl_edgeStrategy_inv (hp vp : List ℚ) (hh ww : ℕ) :
    ∀ (l : List ℚ) (st : DetState), DetInv st →
      DetInv (l.foldl (edgeStrategyStep hp vp hh ww) st) := by
  intro l
  induction l with
  | nil => intro st hinv; exact hinv
  | cons s rest ih =>
    intro st hinv
    rw [List.foldl_cons]
    exact ih _ (edgeStrategyStep_inv hp vp hh ww st s hinv)

lemma guessStage_inv (w h : ℕ) (st : DetState) (hinv : DetInv st) :
    DetInv (guessStage w h st) := by
  unfold guessStage
  cases hg : guess_grid_from_size w h with
  | nil => exact hinv
  | cons g rest =>
    dsimp only
    split_ifs with hscore
    · have hmem := guess_grid_from_size_mem w h g (by rw [hg]; exact List.mem_cons_self g rest)
      refine ⟨?_, ?_, ?_⟩
      · have h0 : (0 : ℝ) ≤ (g.2.2 : ℝ) := by
          have : (0 : ℚ) ≤ g.2.2 := le_of_lt (lt_trans (by norm_num) hscore)
          exact_mod_cast this
        exact mul_nonneg h0 (by norm_num)
      · have h1 : (g.2.2 : ℝ) ≤ 1 := by exact_mod_cast hmem.2.2.2
        calc ((g.2.2 : ℚ) : ℝ) * 0.7 ≤ 1 * 0.7 :=
              mul_le_mul_of_nonneg_right h1 (by norm_num)
          _ ≤ 1 := by norm_num
      · intro hyp hhyp
        obtain rfl := Option.some_inj.mp hhyp
        exact ⟨hmem.1, hmem.2.1⟩
    · exact hinv

lemma assemble_inv (origSize : ℕ × ℕ) (scale : ℚ) (st : DetState) (hinv : DetInv st) :
    1 ≤ (assemble origSize scale st).rows ∧ 1 ≤ (assemble origSize scale st).cols ∧
    0 ≤ (assemble origSize scale st).confidence ∧
    (assemble origSize scale st).confidence ≤ 1 ∧
    1 ≤ (assemble origSize scale st).margin ∧
    (assemble origSize scale st).image_size = origSize := by
  obtain ⟨b, c⟩ := st
  obtain ⟨h0, h1, h2⟩ := hinv
  cases b with
  | none =>
    unfold assemble
    dsimp only
    exact ⟨le_refl 1, le_refl 1, le_refl 0, by norm_num, le_max_left 1 _, rfl⟩
  | some hyp =>
    unfold assemble
    dsimp only
    have := h2 hyp rfl
    exact ⟨this.1, this.2, h0, h1, le_max_left 1 _, rfl⟩

/-- C4: every `AnalysisResult` returned by the analysis (any projections,
dimensions, original size, scale factor and mode) satisfies `rows >= 1`,
`cols >= 1`, `confidence` in `[0, 1]`, `margin >= 1`, and `image_size`
equal to the original pre-downscale size passed in. -/
theorem C4_result_invariants (hp vp : List ℚ) (width height : ℕ) (origSize : ℕ × ℕ)
    (scale : ℚ) (mode : String) (r : AnalysisResult)
    (h : analyze_spritesheet hp vp width height origSize scale mode = some r) :
    1 ≤ r.rows ∧ 1 ≤ r.cols ∧ 0 ≤ r.confidence ∧ r.confidence ≤ 1 ∧
    1 ≤ r.margin ∧ r.image_size = origSize := by
  unfold analyze_spritesheet at h
  dsimp only at h
  obtain ⟨st1, h1, h⟩ := Option.bind_eq_some.mp h
  obtain ⟨st2, h2, h⟩ := Option.bind_eq_some.mp h
  have hinv1 : DetInv st1 := by
    by_cases hm : mode = "auto" ∨ mode = "dark_lines"
    · rw [if_pos hm] at h1
      exact foldlM_lineStrategy_inv hp vp height width true "dark_lines" _ _ _ detInv_init h1
    · rw [if_neg hm] at h1
      obtain rfl := Option.some_inj.mp h1
      exact detInv_init
  have hinv2 : DetInv st2 := by
    by_cases hm : mode = "auto" ∨ mode = "light_lines"
    · rw [if_pos hm] at h2
      exact foldlM_lineStrategy_inv hp vp height width false "light_lines" _ _ _ hinv1 h2
    · rw [if_neg hm] at h2
      obtain rfl := Option.some_inj.mp h2
      exact hinv1
  have hinv3 : DetInv (if mode = "auto" ∨ mode = "edges" then
      ([20, 30, 40] : List ℚ).foldl (edgeStrategyStep hp vp height width) st2
    else st2) := by
    split_ifs with hm
    · exact foldl_edgeStrategy_inv hp vp height width _ _ hinv2
    · exact hinv2
  set st3 := if mode = "auto" ∨ mode = "edges" then
      ([20, 30, 40] : List ℚ).foldl (edgeStrategyStep hp vp height width) st2
    else st2 with hst3
  have hinv4 : DetInv (if (mode = "auto" ∨ mode = "guess") ∧ st3.2 < 0.5 then
      guessStage origSize.1 origSize.2 st3 else st3) := by
    split_ifs with hm
    · exact guessStage_inv origSize.1 origSize.2 st3 hinv3
    · exact hinv3
  obtain rfl := Option.some_inj.mp h
  exact assemble_inv origSize scale _ hinv4

/-! ## The degenerate default result (claims C10 and C4's witness) -/

lemma assemble_none_eq (origSize : ℕ × ℕ) (scale : ℚ) (c : ℝ) :
    assemble origSize scale ((none : Option Hyp), c) =
      ⟨1, 1, [], [], 2, 2, 0, origSize, "none"⟩ := by
  unfold assemble
  dsimp only
  have hsc : (if scale ≠ 1 then
      List.map (fun p : ℕ × ℕ => (pyTrunc ((p.1 : ℚ) * scale), pyTrunc ((p.2 : ℚ) * scale)))
        ([] : List (ℕ × ℕ))
    else List.map (fun p : ℕ × ℕ => ((p.1 : ℤ), (p.2 : ℤ))) ([] : List (ℕ × ℕ)))
      = ([] : List (ℤ × ℤ)) := by
    split_ifs <;> simp
  rw [hsc]
  norm_num [pyTrunc, round1Q, pyRoundQ, meanQ]

lemma analyze_invalid_mode (hp vp : List ℚ) (width height : ℕ)
    (origSize : ℕ × ℕ) (scale : ℚ) (mode : String)
    (h1 : mode ≠ "auto") (h2 : mode ≠ "dark_lines") (h3 : mode ≠ "light_lines")
    (h4 : mode ≠ "edges") (h5 : mode ≠ "guess") :
    analyze_spritesheet hp vp width height origSize scale mode =
      some ⟨1, 1, [], [], 2, 2, 0, origSize, "none"⟩ := by
  unfold analyze_spritesheet
  dsimp only
  have c1 : (mode = "auto" ∨ mode = "dark_lines") = False := by simp [h1, h2]
  have c2 : (mode = "auto" ∨ mode = "light_lines") = False := by simp [h1, h3]
  have c3 : (mode = "auto" ∨ mode = "edges") = False := by simp [h1, h4]
  have c4 : (mode = "auto" ∨ mode = "guess") = False := by simp [h1, h5]
  simp only [c1, c2, c3, c4, if_false, false_and, Option.some_bind]
  rw [assemble_none_eq]

/-- C10: calling the analysis with a detection mode outside
`{auto, dark_lines, light_lines, edges, guess}` does not raise: no
detector and no size-guess fallback runs, and the result is the
degenerate default `rows = 1`, `cols = 1`, `confidence = 0`,
`detection_method = "none"`, with empty line lists, `margin = 2` and
`line_width = 2`. -/
theorem C10_unknown_mode_default (hp vp : List ℚ) (width height : ℕ)
    (origSize : ℕ × ℕ) (scale : ℚ) (mode : String)
    (h : mode ∉ (["auto", "dark_lines", "light_lines", "edges", "guess"] : List String)) :
    analyze_spritesheet hp vp width height origSize scale mode =
      some ⟨1, 1, [], [], 2, 2, 0, origSize, "none"⟩ := by
  refine analyze_invalid_mode hp vp width height origSize scale mode ?_ ?_ ?_ ?_ ?_ <;>
    (intro hmode; subst hmode; simp at h)

/-- C10 witness: the unknown mode `"bogus"` on a concrete input. -/
theorem C10_unknown_mode_default_witness :
    analyze_spritesheet [] [] 0 0 (5, 7) 1 "bogus" =
      some ⟨1, 1, [], [], 2, 2, 0, (5, 7), "none"⟩ :=
  C10_unknown_mode_default [] [] 0 0 (5, 7) 1 "bogus" (by decide)

/-- C4 witness: the invariants evaluated on the default result that the
analysis returns for a concrete input with an unknown mode. -/
theorem C4_result_invariants_witness :
    1 ≤ (⟨1, 1, [], [], 2, 2, 0, (5, 7), "none"⟩ : AnalysisResult).rows ∧
    1 ≤ (⟨1, 1, [], [], 2, 2, 0, (5, 7), "none"⟩ : AnalysisResult).cols ∧
    0 ≤ (⟨1, 1, [], [], 2, 2, 0, (5, 7), "none"⟩ : AnalysisResult).confidence ∧
    (⟨1, 1, [], [], 2, 2, 0, (5, 7), "none"⟩ : AnalysisResult).confidence ≤ 1 ∧
    1 ≤ (⟨1, 1, [], [], 2, 2, 0, (5, 7), "none"⟩ : AnalysisResult).margin ∧
    (⟨1, 1, [], [], 2, 2, 0, (5, 7), "none"⟩ : AnalysisResult).image_size = (5, 7) :=
  C4_result_invariants [] [] 0 0 (5, 7) 1 "x" _
    (analyze_invalid_mode [] [] 0 0 (5, 7) 1 "x"
      (by decide) (by decide) (by decide) (by decide) (by decide))

/-- C6: the analysis is deterministic: two calls on identical inputs
(identical projections, dimensions, original size, scale factor and mode
string) return identical results.  The embedded computation is a pure
function — the Python code keeps no mutable state across calls — so
equality of inputs propagates to equality of outputs. -/
theorem C6_deterministic (hp1 hp2 vp1 vp2 : List ℚ) (w1 w2 h1 h2 : ℕ)
    (o1 o2 : ℕ × ℕ) (s1 s2 : ℚ) (m1 m2 : String)
    (hhp : hp1 = hp2) (hvp : vp1 = vp2) (hw : w1 = w2) (hh : h1 = h2)
    (ho : o1 = o2) (hs : s1 = s2) (hm : m1 = m2) :
    analyze_spritesheet hp1 vp1 w1 h1 o1 s1 m1 =
      analyze_spritesheet hp2 vp2 w2 h2 o2 s2 m2 := by
  subst hhp
  subst hvp
  subst hw
  subst hh
  subst ho
  subst hs
  subst hm
  rfl

/-- C6 witness: determinism applied at a concrete input. -/
theorem C6_deterministic_witness :
    analyze_spritesheet [1, 2] [3] 1 2 (1, 2) 1 "auto" =
      analyze_spritesheet [1, 2] [3] 1 2 (1, 2) 1 "auto" :=
  C6_deterministic [1, 2] [1, 2] [3] [3] 1 1 2 2 (1, 2) (1, 2) 1 1 "auto" "auto"
    rfl rfl rfl rfl rfl rfl rfl

/-! ## The worked example (claim C5) -/


/-- The worked-example projection of C5: length 300, value 200
everywhere except value 0 at indices in `[99, 101)` and `[199, 201)`. -/
def projC5 : List ℚ :=
  List.replicate 99 200 ++ [0, 0] ++ List.replicate 98 200 ++ [0, 0] ++ List.replicate 99 200

lemma meanC5 : meanQ projC5 = 592 / 3 := by
  rw [meanQ, projC5]
  simp only [List.sum_append, List.sum_replicate, List.length_append, List.length_replicate,
    List.sum_cons, List.sum_nil, List.length_cons, List.length_nil, nsmul_eq_mul]
  norm_num

lemma isLC5_200 : isLineFn (592 / 3) 0.3 true 200 = false := by
  simp only [isLineFn, if_true, decide_eq_false_iff_not, not_lt]
  norm_num

lemma isLC5_0 : isLineFn (592 / 3) 0.3 true 0 = true := by
  simp only [isLineFn, if_true, decide_eq_true_eq]
  norm_num

lemma step_notline (isL : ℚ → Bool) (minW : ℕ) (c : ℚ) (hc : isL c = false)
    (i s0 : ℕ) (L : List (ℕ × ℕ)) :
    lineScanStep isL minW (i, false, s0, L) c = (i + 1, false, s0, L) := by
  unfold lineScanStep
  dsimp only
  rw [if_neg (by simp [hc]), if_neg (by simp)]

lemma step_enter (isL : ℚ → Bool) (minW : ℕ) (c : ℚ) (hc : isL c = true)
    (i s0 : ℕ) (L : List (ℕ × ℕ)) :
    lineScanStep isL minW (i, false, s0, L) c = (i + 1, true, i, L) := by
  unfold lineScanStep
  dsimp only
  rw [if_pos ⟨hc, rfl⟩]

lemma step_stay_in (isL : ℚ → Bool) (minW : ℕ) (c : ℚ) (hc : isL c = true)
    (i s0 : ℕ) (L : List (ℕ × ℕ)) :
    lineScanStep isL minW (i, true, s0, L) c = (i + 1, true, s0, L) := by
  unfold lineScanStep
  dsimp only
  rw [if_neg (by simp), if_neg (by simp [hc])]

lemma step_close (isL : ℚ → Bool) (minW : ℕ) (c : ℚ) (hc : isL c = false)
    (i s0 : ℕ) (L : List (ℕ × ℕ)) (hw : minW ≤ i - s0) :
    lineScanStep isL minW (i, true, s0, L) c = (i + 1, false, s0, L ++ [(s0, i)]) := by
  unfold lineScanStep
  dsimp only
  rw [if_neg (by simp [hc]), if_pos ⟨hc, rfl⟩, if_pos hw]

lemma foldl_replicate_notline (isL : ℚ → Bool) (minW : ℕ) (c : ℚ) (hc : isL c = false) :
    ∀ (n i s0 : ℕ) (L : List (ℕ × ℕ)),
      (List.replicate n c).foldl (lineScanStep isL minW) (i, false, s0, L) =
        (i + n, false, s0, L) := by
  intro n
  induction n with
  | zero => intro i s0 L; simp
  | succ n ih =>
    intro i s0 L
    rw [List.replicate_succ, List.foldl_cons, step_notline isL minW c hc, ih]
    have : i + 1 + n = i + (n + 1) := by omega
    rw [this]

lemma foldC5 :
    projC5.foldl (lineScanStep (isLineFn (592 / 3) 0.3 true) 1) (0, false, 0, []) =
      (300, false, 199, [(99, 101), (199, 201)]) := by
  have h200 := isLC5_200
  have h0 := isLC5_0
  set isL := isLineFn (592 / 3) 0.3 true with hisL
  rw [projC5]
  rw [List.foldl_append, List.foldl_append, List.foldl_append, List.foldl_append]
  rw [foldl_replicate_notline isL 1 200 h200]
  have htwo : ∀ (i s0 : ℕ) (L : List (ℕ × ℕ)),
      ([0, 0] : List ℚ).foldl (lineScanStep isL 1) (i, false, s0, L) = (i + 2, true, i, L) := by
    intro i s0 L
    rw [show ([0, 0] : List ℚ) = 0 :: 0 :: [] from rfl]
    rw [List.foldl_cons, step_enter isL 1 0 h0, List.foldl_cons, step_stay_in isL 1 0 h0,
      List.foldl_nil]
  rw [htwo]
  have hrep : ∀ (n i s0 : ℕ) (L : List (ℕ × ℕ)), 1 ≤ i - s0 →
      (List.replicate (n + 1) 200 : List ℚ).foldl (lineScanStep isL 1) (i, true, s0, L) =
        (i + n + 1, false, s0, L ++ [(s0, i)]) := by
    intro n i s0 L hw
    rw [List.replicate_succ, List.foldl_cons, step_close isL 1 200 h200 i s0 L hw,
      foldl_replicate_notline isL 1 200 h200]
    have : i + 1 + n = i + n + 1 := by omega
    rw [this]
  rw [show (98 : ℕ) = 97 + 1 from rfl]
  rw [hrep 97 (0 + 99 + 2) 99 [] (by omega)]
  rw [htwo]
  rw [show (99 : ℕ) = 98 + 1 from rfl]
  rw [hrep 98 (0 + 99 + 2 + 97 + 1 + 2) 199 ([] ++ [(99, 101)]) (by omega)]
  norm_num

lemma detectC5 : detect_grid_lines projC5 0.3 1 true = some [(99, 101), (199, 201)] := by
  have hne : projC5 ≠ [] := by
    intro hcon
    have hlen := congrArg List.length hcon
    rw [projC5] at hlen
    simp only [List.length_append, List.length_replicate, List.length_cons,
      List.length_nil] at hlen
    omega
  rw [detect_grid_lines, if_neg hne]
  dsimp only
  rw [meanC5]
  unfold lineScan
  dsimp only
  rw [foldC5]
  rw [if_neg (by simp)]

/-- C5: on the worked-example projection, the dark Line Detector at
threshold ratio 0.3 returns exactly `[(99,101), (199,201)]`; the
Periodicity Filter keeps both intervals and estimates 3 cells; the
average interval width is 2 and the code's margin expression
`max(1, int(avg/2 + 1))` (equal to `max(1, floor(2/2)+1)`) evaluates
to 2. -/
theorem C5_worked_example :
    detect_grid_lines projC5 0.3 1 true = some [(99, 101), (199, 201)] ∧
    find_periodic_lines [(99, 101), (199, 201)] 300 0.25 = ([(99, 101), (199, 201)], 3) ∧
    meanQ (([(99, 101), (199, 201)] : List (ℕ × ℕ)).map fun p => ((p.2 : ℚ) - (p.1 : ℚ))) = 2 ∧
    max 1 (pyTrunc ((2 : ℚ) / 2 + 1)) = 2 := by
  refine ⟨detectC5, ?_, ?_, ?_⟩
  · norm_num [find_periodic_lines, keepPeriodicFrom, centerQ, gapsOf, medianQ, sortQ,
      List.insertionSort, List.orderedInsert, List.getD]
  · norm_num [meanQ]
  · norm_num [pyTrunc]

/-! ## The size-guess fallback on a uniform 800 x 200 image (claim C3) -/


set_option maxHeartbeats 1000000 in
lemma guessEval : guess_grid_from_size 800 200 =
    [(2, 4, 1), (4, 8, 1), (5, 10, 1), (2, 8, 1), (4, 12, 199/200)] := by
  norm_num [guess_grid_from_size, common_grids, List.filterMap_cons,
    List.insertionSort, List.orderedInsert]

lemma meanQ_replicate (n : ℕ) (c : ℚ) (hn : n ≠ 0) :
    meanQ (List.replicate n c) = c := by
  rw [meanQ]
  simp only [List.sum_replicate, List.length_replicate, nsmul_eq_mul]
  rw [mul_comm, mul_div_assoc, div_self (by exact_mod_cast hn), mul_one]

lemma detect_replicate_empty (c t : ℚ) (w : ℕ) (d : Bool) (n : ℕ) (hn : n ≠ 0)
    (hc : isLineFn c t d c = false) :
    detect_grid_lines (List.replicate n c) t w d = some [] := by
  have hne : List.replicate n c ≠ [] := by simp [hn]
  rw [detect_grid_lines, if_neg hne]
  dsimp only
  rw [meanQ_replicate n c hn]
  unfold lineScan
  dsimp only
  rw [foldl_replicate_notline _ w c hc n 0 0 []]
  rw [if_neg (by simp)]

lemma lineStrategyStep_skip (hp vp : List ℚ) (hh ww : ℕ) (d : Bool) (m : String)
    (st : DetState) (t : ℚ)
    (hdh : detect_grid_lines hp t 1 d = some [])
    (hdv : detect_grid_lines vp t 1 d = some []) :
    lineStrategyStep hp vp hh ww d m st t = some st := by
  unfold lineStrategyStep
  rw [hdh, hdv]
  dsimp only
  rw [if_neg (by norm_num [find_periodic_lines])]

lemma foldlM_skip (f : DetState → ℚ → Option DetState) (l : List ℚ) (st : DetState)
    (h : ∀ t ∈ l, f st t = some st) : l.foldlM f st = some st := by
  induction l with
  | nil => rfl
  | cons t rest ih =>
    rw [List.foldlM_cons, h t (List.mem_cons_self t rest)]
    have hb : (some st >>= fun s => rest.foldlM f s) = rest.foldlM f st := rfl
    rw [hb]
    exact ih fun u hu => h u (List.mem_cons_of_mem t hu)

lemma gradientsOf_replicate (c : ℚ) : ∀ n, gradientsOf (List.replicate n c) =
    List.replicate (n - 1) 0 := by
  intro n
  induction n with
  | zero => rfl
  | succ m ih =>
    cases m with
    | zero => rfl
    | succ k =>
      rw [List.replicate_succ, List.replicate_succ]
      have hg : gradientsOf (c :: c :: List.replicate k c) =
          |c - c| :: gradientsOf (c :: List.replicate k c) := rfl
      rw [hg, sub_self, abs_zero]
      rw [← List.replicate_succ]
      rw [ih]
      simp [List.replicate_succ]

lemma edgeScan_replicate_zero (s : ℚ) (g : ℕ) (hs : ¬s ≤ 0) :
    ∀ (k i : ℕ) (last : Option ℕ),
      edgeScan s g (List.replicate k 0) i last = [] := by
  intro k
  induction k with
  | zero => intro i last; rfl
  | succ m ih =>
    intro i last
    rw [List.replicate_succ]
    unfold edgeScan
    rw [decide_eq_false hs]
    simp only [Bool.false_and, Bool.false_eq_true, if_false]
    exact ih (i + 1) last

lemma detect_edges_replicate (c s : ℚ) (g : ℕ) (n : ℕ) (hs : ¬s ≤ 0) :
    detect_edges (List.replicate n c) s g = [] := by
  rw [detect_edges, gradientsOf_replicate]
  exact edgeScan_replicate_zero s g hs (n - 1) 0 none

lemma edgeStrategyStep_skip (hp vp : List ℚ) (hh ww : ℕ) (st : DetState) (s : ℚ)
    (hde : detect_edges hp s (hh / 20) = [])
    (hdv : detect_edges vp s (ww / 20) = []) :
    edgeStrategyStep hp vp hh ww st s = st := by
  unfold edgeStrategyStep
  dsimp only
  rw [hde, hdv]
  rw [if_neg (by norm_num [find_periodic_edges])]

lemma foldl_skip (f : DetState → ℚ → DetState) (l : List ℚ) (st : DetState)
    (h : ∀ t ∈ l, f st t = st) : l.foldl f st = st := by
  induction l with
  | nil => rfl
  | cons t rest ih =>
    rw [List.foldl_cons, h t (List.mem_cons_self t rest)]
    exact ih fun u hu => h u (List.mem_cons_of_mem t hu)

lemma analyzeUniformC3 :
    analyze_spritesheet (List.replicate 200 (128 : ℚ)) (List.replicate 800 (128 : ℚ))
      800 200 (800, 200) 1 "auto" =
      some ⟨2, 4, [], [], 2, 2, 0.7, (800, 200), "guess"⟩ := by
  have hdark : ∀ t ∈ ([0.2, 0.3, 0.4, 0.5] : List ℚ), isLineFn 128 t true 128 = false := by
    intro t ht
    simp only [List.mem_cons, List.not_mem_nil, or_false] at ht
    rcases ht with rfl | rfl | rfl | rfl <;>
      (simp only [isLineFn, if_true, decide_eq_false_iff_not, not_lt]; norm_num)
  have hlight : ∀ t ∈ ([0.3, 0.4, 0.5] : List ℚ), isLineFn 128 t false 128 = false := by
    intro t ht
    simp only [List.mem_cons, List.not_mem_nil, or_false] at ht
    rcases ht with rfl | rfl | rfl <;>
      (simp only [isLineFn, Bool.false_eq_true, if_false, decide_eq_false_iff_not, not_lt];
        norm_num)
  have h1 : ([0.2, 0.3, 0.4, 0.5] : List ℚ).foldlM
      (lineStrategyStep (List.replicate 200 (128 : ℚ)) (List.replicate 800 (128 : ℚ))
        200 800 true "dark_lines") ((none : Option Hyp), (0 : ℝ)) =
      some ((none : Option Hyp), (0 : ℝ)) := by
    apply foldlM_skip
    intro t ht
    exact lineStrategyStep_skip _ _ _ _ _ _ _ t
      (detect_replicate_empty 128 t 1 true 200 (by norm_num) (hdark t ht))
      (detect_replicate_empty 128 t 1 true 800 (by norm_num) (hdark t ht))
  have h2 : ([0.3, 0.4, 0.5] : List ℚ).foldlM
      (lineStrategyStep (List.replicate 200 (128 : ℚ)) (List.replicate 800 (128 : ℚ))
        200 800 false "light_lines") ((none : Option Hyp), (0 : ℝ)) =
      some ((none : Option Hyp), (0 : ℝ)) := by
    apply foldlM_skip
    intro t ht
    exact lineStrategyStep_skip _ _ _ _ _ _ _ t
      (detect_replicate_empty 128 t 1 false 200 (by norm_num) (hlight t ht))
      (detect_replicate_empty 128 t 1 false 800 (by norm_num) (hlight t ht))
  have h3 : ([20, 30, 40] : List ℚ).foldl
      (edgeStrategyStep (List.replicate 200 (128 : ℚ)) (List.replicate 800 (128 : ℚ))
        200 800) ((none : Option Hyp), (0 : ℝ)) = ((none : Option Hyp), (0 : ℝ)) := by
    apply foldl_skip
    intro s hs
    have hspos : ¬s ≤ 0 := by
      simp only [List.mem_cons, List.not_mem_nil, or_false] at hs
      rcases hs with rfl | rfl | rfl <;> norm_num
    exact edgeStrategyStep_skip _ _ _ _ _ s
      (detect_edges_replicate 128 s (200 / 20) 200 hspos)
      (detect_edges_replicate 128 s (800 / 20) 800 hspos)
  have h4 : guessStage 800 200 ((none : Option Hyp), (0 : ℝ)) =
      (some ⟨[], [], 2, 4, "guess"⟩, ((1 : ℚ) : ℝ) * 0.7) := by
    unfold guessStage
    rw [guessEval]
    dsimp only
    rw [if_pos (by norm_num)]
  have h5 : assemble (800, 200) 1
      ((some (⟨[], [], 2, 4, "guess"⟩ : Hyp)), ((1 : ℚ) : ℝ) * 0.7) =
      ⟨2, 4, [], [], 2, 2, 0.7, (800, 200), "guess"⟩ := by
    unfold assemble
    dsimp only
    rw [if_neg (by norm_num)]
    norm_num [pyTrunc, round1Q, pyRoundQ, meanQ]
  unfold analyze_spritesheet
  dsimp only
  rw [if_pos (Or.inl rfl : ("auto" = "auto" ∨ "auto" = "dark_lines")), h1, Option.some_bind]
  rw [if_pos (Or.inl rfl : ("auto" = "auto" ∨ "auto" = "light_lines")), h2, Option.some_bind]
  rw [if_pos (Or.inl rfl : ("auto" = "auto" ∨ "auto" = "edges")), h3]
  rw [if_pos (⟨Or.inl rfl, by norm_num⟩ :
    ("auto" = "auto" ∨ "auto" = "guess") ∧ ((none : Option Hyp), (0 : ℝ)).2 < 0.5)]
  rw [h4, h5]

/-- C3: the claim as stated is FALSE.  On a uniform 800 x 200 image
(every sweep yields no candidate) the fallback does fire, but the top
catalog candidate after the stable descending sort is `(rows=2, cols=4)`
(score 1.0), not `(rows=2, cols=8)`: the analysis returns a 2 x 4 grid,
so the catalog entry matched by the fallback is not `(2, 8)`. -/
theorem C3_counterexample :
    (analyze_spritesheet (List.replicate 200 (128 : ℚ)) (List.replicate 800 (128 : ℚ))
      800 200 (800, 200) 1 "auto").map (fun r => (r.rows, r.cols)) ≠ some (2, 8) := by
  rw [analyzeUniformC3]
  intro hcon
  simp at hcon

/-- C3 (amended): on the uniform 800 x 200 image the analysis falls back
to the Size Guesser; `(2, 8)` does appear among the scored candidates
with score 1.0 > 0.8, but the stable descending sort ranks `(2, 4)`
(also score 1.0) first, so the result is `rows=2, cols=4`,
`detection_method = "guess"`, `confidence = 0.7 x 1.0 = 0.7`. -/
theorem C3_guess_top_candidate :
    guess_grid_from_size 800 200 =
      [(2, 4, 1), (4, 8, 1), (5, 10, 1), (2, 8, 1), (4, 12, 199 / 200)] ∧
    analyze_spritesheet (List.replicate 200 (128 : ℚ)) (List.replicate 800 (128 : ℚ))
      800 200 (800, 200) 1 "auto" =
      some ⟨2, 4, [], [], 2, 2, 0.7, (800, 200), "guess"⟩ :=
  ⟨guessEval, analyzeUniformC3⟩
